import Mathlib

/-!
Verification of the metadata-recovery and grid-reconstruction engine of
`topo/modele_pism_inputs.py` (the `twoway` repository).

Python strings are embedded as `List Char` (Python indexes and slices
strings by code point, which matches positional access on the char list).
`collections.OrderedDict` is embedded as an association list in insertion
order, with the usual update-in-place / append-if-new assignment.
Python exceptions are embedded as `Except` errors; each embedded function
carries an error inductive naming the exceptions its source lines can
raise.  numpy floating-point values are embedded as `Option ℚ`: `some q`
is a finite value of exact rational value `q` (rounding is idealized away),
`none` is a non-finite value (inf or nan); numpy float arithmetic does not
raise on division by zero, it produces a non-finite value, and the
embedding mirrors that.
-/

namespace TwoWay

/-- A Python string, indexed by code point. -/
abbrev Str := List Char

/-- Shorthand turning a Lean string literal into its char list. -/
def str (s : String) : Str := s.data

/-- `collections.OrderedDict` from argument name to value (`none` models
Python `None`, the valueless-flag marker), kept in insertion order. -/
abbrev ArgsMap := List (Str × Option Str)

/-- OrderedDict assignment `d[k] = v`: if the key is present its value is
replaced in place (position kept), otherwise the pair is appended. -/
def odSet (m : ArgsMap) (k : Str) (v : Option Str) : ArgsMap :=
  if m.any (fun p => p.1 == k) then
    m.map (fun p => if p.1 == k then (p.1, v) else p)
  else
    m ++ [(k, v)]

/-- OrderedDict read `d[k]`: `none` when the key is absent (a `KeyError`
site in Python), `some v` otherwise. -/
def odGet (m : ArgsMap) (k : Str) : Option (Option Str) :=
  (m.find? (fun p => p.1 == k)).map (fun p => p.2)

/-- OrderedDict deletion `del d[k]`, tolerant of absence (the source wraps
it in `try ... except KeyError: pass`). -/
def odDel (m : ArgsMap) (k : Str) : ArgsMap :=
  m.filter (fun p => p.1 != k)

/-- `re.split(r'\s+', s)`: split on maximal whitespace runs; a leading or
trailing run contributes an empty token, interior runs are collapsed. -/
def splitWsAux : Str → Str → List Str
  | cur, [] => [cur.reverse]
  | cur, c :: cs =>
    if c.isWhitespace then
      match cs with
      | [] => [cur.reverse, []]
      | d :: ds =>
        if d.isWhitespace then splitWsAux cur (d :: ds)
        else cur.reverse :: splitWsAux [d] ds
    else splitWsAux (c :: cur) cs

/-- Tokenization of the stored command line, `re.split(r'\s+', nc.command)`. -/
def cmdTokens (command : Str) : List Str := splitWsAux [] command

/-- Python `tok.startswith('-')`. -/
def startsDash : Str → Bool
  | [] => false
  | c :: _ => c == '-'

/-- The one exception kind the parsing loop of `snoop_pism` can raise:
`IndexError`, from `cmd[i+1]` past the end or from `cmd[i+1][2]` on a
two-character token. -/
inductive ParseErr
  | indexError
deriving DecidableEq

/-- The command-line parsing loop of `snoop_pism` (lines 198-206): cursor
`i` walks the token list; a token starting with `-` consults the next
token: a non-dash next token is consumed as the value (`i += 2`); a dash
next token is probed with `len(cmd[i+1]) > 1 and cmd[i+1][2].isdigit()`,
consuming it as a value when the probe is true and recording a valueless
flag otherwise (`i += 1`); the probe itself raises `IndexError` on a
two-character dash token, and `cmd[i+1]` raises `IndexError` when a dash
token is last.  Other tokens are skipped. -/
def parseLoop : ArgsMap → List Str → Except ParseErr ArgsMap
  | args, [] => .ok args
  | args, [tok] =>
    if startsDash tok then .error .indexError else .ok args
  | args, tok :: next :: rest =>
    if startsDash tok then
      if startsDash next then
        if 1 < next.length then
          match next[2]? with
          | none => .error .indexError
          | some c =>
            if c.isDigit then parseLoop (odSet args (tok.drop 1) (some next)) rest
            else parseLoop (odSet args (tok.drop 1) none) (next :: rest)
        else parseLoop (odSet args (tok.drop 1) none) (next :: rest)
      else parseLoop (odSet args (tok.drop 1) (some next)) rest
    else parseLoop args (next :: rest)

/-- The argument-map extraction of `snoop_pism` applied to a stored
command-line string: tokenize, then run the parsing loop on an empty
ordered map. -/
def snoop_pism_args (command : Str) : Except ParseErr ArgsMap :=
  parseLoop [] (cmdTokens command)

/-- Modelled from the spec: the error the spec assigns to a command line
that violates the parser's expected shape (`MalformedCommandLineError`). -/
inductive SpecParseErr
  | malformedCommandLine
deriving DecidableEq

/-- Modelled from the spec: the flag/value policy of section 4.2 taken at
its word — at a dash token, the next token is consumed as the value when
it does not begin with `-`, or when it begins with `-` and its third
character exists and is a digit; otherwise the argument is recorded as a
valueless flag.  A dash token with no following token is malformed. -/
def specPolicyLoop : ArgsMap → List Str → Except SpecParseErr ArgsMap
  | args, [] => .ok args
  | args, [tok] =>
    if startsDash tok then .error .malformedCommandLine else .ok args
  | args, tok :: next :: rest =>
    if startsDash tok then
      if (! startsDash next) ||
          (match next[2]? with | some c => c.isDigit | none => false) then
        specPolicyLoop (odSet args (tok.drop 1) (some next)) rest
      else specPolicyLoop (odSet args (tok.drop 1) none) (next :: rest)
    else specPolicyLoop args (next :: rest)

/-- Modelled from the spec: tokenization plus the section 4.2 policy. -/
def specPolicyParse (command : Str) : Except SpecParseErr ArgsMap :=
  specPolicyLoop [] (cmdTokens command)

/-- A numpy floating-point value: `some q` is a finite value of exact
rational value `q` (rounding idealized away), `none` is non-finite
(inf or nan). -/
abbrev NpF := Option ℚ

/-- numpy addition: finite on finite operands, non-finite otherwise. -/
def npAdd : NpF → NpF → NpF
  | some a, some b => some (a + b)
  | _, _ => none

/-- numpy subtraction. -/
def npSub : NpF → NpF → NpF
  | some a, some b => some (a - b)
  | _, _ => none

/-- numpy multiplication. -/
def npMul : NpF → NpF → NpF
  | some a, some b => some (a * b)
  | _, _ => none

/-- numpy division: IEEE division by zero does not raise, it yields a
non-finite value (inf or nan). -/
def npDiv : NpF → NpF → NpF
  | some a, some b => if b = 0 then none else some (a / b)
  | _, _ => none

/-- Exceptions raised by the grid-identity part of `snoop_pism`:
`IndexError` from indexing a too-short coordinate array, `ValueError`
from `int()` on a non-finite float.  `degenerateGrid` stands for the
spec's `DegenerateGridError`; no source line raises it, the constructor
exists so that the spec's claim about it can be stated. -/
inductive SnoopErr
  | indexError
  | valueError
  | degenerateGrid
deriving DecidableEq

/-- Resampling of one axis (`snoop_pism`, lines 216-217): for each target
index `ix` in `range(Mx)`, `xc5[0] + (xc5[-1] - xc5[0]) * ix / (Mx - 1)`,
with numpy float arithmetic.  Indexing `xc5[0]` on an empty array raises
`IndexError`; the division itself never raises. -/
def resampleAxis (xc5 : List NpF) (Mx : ℕ) : Except SnoopErr (List NpF) :=
  match xc5 with
  | [] => .error .indexError
  | x0 :: _ =>
    .ok ((List.range Mx).map (fun (ix : ℕ) =>
      npAdd x0 (npDiv (npMul (npSub (xc5.getD (xc5.length - 1) none) x0)
        (some (ix : ℚ))) (some ((Mx : ℚ) - 1)))))

/-- Python `int()` on a rational: truncation toward zero. -/
def pyInt (q : ℚ) : ℤ :=
  if 0 ≤ q then ⌊q⌋ else ⌈q⌉

/-- Python `int()` on a numpy float: truncation toward zero on a finite
value; `ValueError`/`OverflowError` on nan or inf (embedded as one kind). -/
def npToInt : NpF → Except SnoopErr ℤ
  | some q => .ok (pyInt q)
  | none => .error .valueError

/-- Per-axis resolution in km (`snoop_pism`, lines 224-225):
`int(.5 + (xc[1] - xc[0]) / 1000.)`.  Indexing `xc[1]` on an axis with
fewer than two centers raises `IndexError`. -/
def axisRes (xc : List NpF) : Except SnoopErr ℤ :=
  match xc with
  | x0 :: x1 :: _ => npToInt (npAdd (some (1 / 2)) (npDiv (npSub x1 x0) (some 1000)))
  | _ => .error .indexError

/-- Decimal digits of a natural number, most significant first; the first
argument is computation fuel, always called with at least the number
itself (a number `n ≥ 1` has at most `n` digits). -/
def natToStrGo : ℕ → ℕ → Str → Str
  | 0, _, acc => acc
  | _ + 1, 0, acc => acc
  | fuel + 1, n + 1, acc =>
    natToStrGo fuel ((n + 1) / 10) (Char.ofNat (48 + (n + 1) % 10) :: acc)

/-- Python `str()` of a natural number. -/
def natToStr (n : ℕ) : Str :=
  if n = 0 then [ '0' ] else natToStrGo n n []

/-- Python `str()` of an integer (what `'{}'.format` renders). -/
def intToStr (z : ℤ) : Str :=
  if z < 0 then '-' :: natToStr z.natAbs else natToStr z.natAbs

/-- `os.path.split(p)[1]`: the part of the path after the last slash. -/
def basename (s : Str) : Str :=
  (s.reverse.takeWhile (fun c => c != '/')).reverse

/-- The extension-dropping half of `os.path.splitext`: leading dots of
the name belong to the root; the extension starts at the last dot of the
remainder, when there is one. -/
def splitextRoot (s : Str) : Str :=
  let lead := s.takeWhile (fun c => c == '.')
  let rest := s.dropWhile (fun c => c == '.')
  lead ++ (match rest.reverse.dropWhile (fun c => c != '.') with
    | [] => rest
    | _ :: tl => tl.reverse)

/-- The fixed index order of `snoop_pism` (line 221): the SeaRise
convention `(1, 0)`, regardless of the native file's own order. -/
def index_order : ℕ × ℕ := (1, 0)

/-- The recognized regional naming prefix of `snoop_pism` (line 232). -/
def pismGreenland : Str := str "pism_Greenland"

/-- Canonical grid naming (`snoop_pism`, lines 224-235) given the `i`
argument's path and the per-axis resolutions: `dxdy` is a single integer
token when the two resolutions agree and `idx_idy` otherwise; a leaf name
starting with `pism_Greenland` yields `pism_g<dxdy>km_<1><0>`, any other
leaf yields `<stem><dxdy>km_<1>` (the source's format string has a slot
for the second index digit missing). -/
def gridName (ipath : Str) (idx idy : ℤ) : Str :=
  let dxdy := if idx = idy then intToStr idx
    else intToStr idx ++ str "_" ++ intToStr idy
  let iname := basename ipath
  if pismGreenland.isPrefixOf iname then
    str "pism_g" ++ dxdy ++ str "km_" ++
      natToStr index_order.1 ++ natToStr index_order.2
  else
    splitextRoot iname ++ dxdy ++ str "km_" ++ natToStr index_order.1

/-- The naming step of `snoop_pism` on already-resampled centers: compute
both per-axis resolutions, then the canonical name. -/
def snoopName (ipath : Str) (xc yc : List NpF) : Except SnoopErr Str := do
  let idx ← axisRes xc
  let idy ← axisRes yc
  .ok (gridName ipath idx idy)

/-- The one exception kind `center_to_boundaries` can raise, an
`IndexError` from `xc[0]`, `xc[1]` or `xc[-2]` on an array of fewer than
two centers; the spec's taxonomy names this case `InsufficientDataError`. -/
inductive CtbErr
  | insufficientData
deriving DecidableEq

/-- `center_to_boundaries` (lines 271-276): `N` cell centers become `N+1`
boundaries; `xb[0] = 1.5*xc[0] - .5*xc[1]`, the interior is the
element-wise midpoint `(xc[0:-1] + xc[1:]) * .5`, and
`xb[-1] = 1.5*xc[-1] - .5*xc[-2]` (Python index `-k` is `len - k`). -/
def center_to_boundaries (xc : List ℚ) : Except CtbErr (List ℚ) :=
  match xc with
  | x0 :: x1 :: _ =>
    .ok ((3 / 2 * x0 - 1 / 2 * x1) ::
      (List.zipWith (fun a b => (a + b) * (1 / 2)) xc.dropLast (xc.drop 1) ++
        [3 / 2 * xc.getD (xc.length - 1) 0 - 1 / 2 * xc.getD (xc.length - 2) 0]))
  | _ => .error .insufficientData

/-- Python `s.split(sep)` for a one-character separator: split at every
occurrence, keeping empty pieces. -/
def splitChar (sep : Char) : Str → List Str
  | [] => [[]]
  | c :: cs =>
    if c == sep then [] :: splitChar sep cs
    else match splitChar sep cs with
      | [] => [[ c ]]
      | t :: ts => (c :: t) :: ts

/-- Python `sep.join(parts)`. -/
def joinWith (sep : Str) : List Str → Str
  | [] => []
  | [x] => x
  | x :: xs => x ++ sep ++ joinWith sep xs

/-- `os.path.join(a, b)` on POSIX paths: an absolute `b` wins; otherwise
`b` is appended to `a` with a slash inserted unless `a` is empty or
already ends with one. -/
def path_join (a b : Str) : Str :=
  if (str "/").isPrefixOf b then b
  else if a = [] then b
  else if a.getLast? == some '/' then a ++ b
  else a ++ str "/" ++ b

/-- `os.path.normpath` on POSIX paths: drop empty and `.` components,
resolve `..` against the stack (keeping it at the front of a relative
path), and preserve one leading slash — or exactly two when the path
starts with exactly two. -/
def normpath (p : Str) : Str :=
  if p = [] then str "." else
  let slashes : ℕ :=
    if (str "/").isPrefixOf p then
      (if (str "//").isPrefixOf p ∧ ¬ (str "///").isPrefixOf p then 2 else 1)
    else 0
  let newComps := (splitChar '/' p).foldl
    (fun acc comp =>
      if comp = [] ∨ comp = str "." then acc
      else if comp ≠ str ".." ∨ (slashes = 0 ∧ acc = []) ∨
          acc.getLast? = some (str "..") then acc ++ [comp]
      else acc.dropLast)
    []
  let res := List.replicate slashes '/' ++ joinWith (str "/") newComps
  if res = [] then str "." else res

/-- Exceptions the `make_pism_args` body can raise: `KeyError` from
`args[key]` on an absent key, `TypeError` from `os.path.join` on a
`None` value, `AttributeError` from `None.split`. -/
inductive ArgsErr
  | keyError
  | typeError
  | attributeError
deriving DecidableEq

/-- The bootstrap-only keys deleted by `make_pism_args` (lines 247-249). -/
def bootKeys : List Str :=
  [ str "bootstrap", str "Mx", str "My", str "Mz", str "Mbz",
    str "z_spacing", str "Lz", str "Lbz", str "ys", str "ye" ]

/-- The path-valued keys absolutized by `make_pism_args` (line 257). -/
def pathKeys : List Str :=
  [ str "i", str "surface_given_file", str "ocean_kill_file" ]

/-- The required `extra_vars` vocabulary (line 263), as the source holds
it: one comma-separated string, split on commas. -/
def baselineVars : List Str :=
  splitChar ','
    (str "climatic_mass_balance,ice_surface_temp,diffusivity,temppabase,tempicethk_basal,bmelt,tillwat,csurf,mask,thk,topg,usurf")

/-- The deletion loop of `make_pism_args`: `del args[arg]` for each
bootstrap-only key, `KeyError` swallowed. -/
def delBootKeys (m : ArgsMap) : ArgsMap :=
  bootKeys.foldl (fun a k => odDel a k) m

/-- One step of the absolutization loop of `make_pism_args` (line 258):
`args[key] = os.path.normpath(os.path.join(pism_dir, args[key]))`;
an absent key raises `KeyError`, a `None` value raises `TypeError`. -/
def absPathStep (pism_dir : Str) (m : ArgsMap) (key : Str) :
    Except ArgsErr ArgsMap :=
  match odGet m key with
  | none => .error .keyError
  | some none => .error .typeError
  | some (some v) => .ok (odSet m key (some (normpath (path_join pism_dir v))))

/-- The absolutization loop over the three path-valued keys. -/
def absPaths (pism_dir : Str) (m : ArgsMap) : Except ArgsErr ArgsMap :=
  pathKeys.foldlM (fun a k => absPathStep pism_dir a k) m

/-- The `extra_vars` extension of `make_pism_args` (lines 261-266): split
the current value on commas, append each baseline entry not already in
that set (in baseline order), re-join with commas. -/
def extraVarsStep (m : ArgsMap) : Except ArgsErr ArgsMap :=
  match odGet m (str "extra_vars") with
  | none => .error .keyError
  | some none => .error .attributeError
  | some (some ev) =>
    let extra_vars := splitChar ',' ev
    let extended := extra_vars ++
      baselineVars.filter (fun v => ! extra_vars.contains v)
    .ok (odSet m (str "extra_vars") (some (joinWith (str ",") extended)))

/-- `make_pism_args` (lines 239-268) as a function of the copied argument
map: delete the bootstrap-only keys, absolutize the three path-valued
keys, extend `extra_vars`. -/
def make_pism_args (pism_dir : Str) (pismArgs : ArgsMap) :
    Except ArgsErr ArgsMap := do
  let args := delBootKeys pismArgs
  let args ← absPaths pism_dir args
  extraVarsStep args

/-- A heap of OrderedDict objects: Python dict identities are indices
into this list, so that mutation and aliasing are observable. -/
abbrev Store := List ArgsMap

/-- Dereference a dict object. -/
def readCell (st : Store) (r : ℕ) : Option ArgsMap := st[r]?

/-- Mutate a dict object in place. -/
def writeCell (st : Store) (r : ℕ) (m : ArgsMap) : Store := st.set r m

/-- Allocate a fresh dict object holding `m`, returning its identity. -/
def alloc (st : Store) (m : ArgsMap) : Store × ℕ := (st ++ [m], st.length)

/-- The absolutization loop acting on the dict object `j` in the heap:
each iteration reads the dict, applies one `args[key] = ...` statement
and writes it back; a raised exception leaves the heap as it was at the
raise point. -/
def absPathsRef (pism_dir : Str) (st : Store) (j : ℕ) :
    List Str → Store × Option ArgsErr
  | [] => (st, none)
  | k :: ks =>
    match readCell st j with
    | none => (st, some .keyError)
    | some m =>
      match absPathStep pism_dir m k with
      | .error e => (st, some e)
      | .ok m2 => absPathsRef pism_dir (writeCell st j m2) j ks

/-- `make_pism_args` on the heap: `args = OrderedDict(pism['args'].items())`
allocates a fresh object copying the original (line 246); every later
statement mutates that fresh object only.  Returns the heap after the
call together with the result object's identity, or the error raised. -/
def make_pism_args_ref (pism_dir : Str) (st : Store) (r : ℕ) :
    Store × Except ArgsErr ℕ :=
  match readCell st r with
  | none => (st, .error .keyError)
  | some orig =>
    let st1 := (alloc st orig).1
    let j := (alloc st orig).2
    let st2 := writeCell st1 j (delBootKeys orig)
    match absPathsRef pism_dir st2 j pathKeys with
    | (st3, some e) => (st3, .error e)
    | (st3, none) =>
      match readCell st3 j with
      | none => (st3, .error .keyError)
      | some m =>
        match extraVarsStep m with
        | .error e => (st3, .error e)
        | .ok m2 => (writeCell st3 j m2, .ok j)

/-! ### Helper lemmas -/

/-- Any pair of an OrderedDict after an assignment either bears the
assigned key or bears a key the dict already had. -/
theorem odSet_key_mem (m : ArgsMap) (k : Str) (v : Option Str)
    (p : Str × Option Str) (hp : p ∈ odSet m k v) :
    p.1 = k ∨ ∃ w, (p.1, w) ∈ m := by
  unfold odSet at hp
  by_cases h : m.any (fun q => q.1 == k)
  · rw [if_pos h] at hp
    obtain ⟨q, hq, hqe⟩ := List.mem_map.mp hp
    by_cases hk : q.1 == k
    · rw [if_pos hk] at hqe
      right
      exact ⟨q.2, by rw [← hqe]; exact hq⟩
    · rw [if_neg hk] at hqe
      right
      exact ⟨q.2, by rw [← hqe]; exact hq⟩
  · rw [if_neg h] at hp
    rcases List.mem_append.mp hp with hm | hone
    · exact .inr ⟨p.2, hm⟩
    · left
      have : p = (k, v) := by simpa using hone
      rw [this]

/-- A token the parsing cursor lands on that does not begin with a dash
is skipped: it changes neither the accumulated map nor the outcome. -/
theorem parseLoop_skip (args : ArgsMap) (t : Str) (rest : List Str)
    (h : startsDash t = false) :
    parseLoop args (t :: rest) = parseLoop args rest := by
  cases rest with
  | nil => simp [parseLoop, h]
  | cons n r => simp [parseLoop, h]

/-- An existing-key source survives an assignment step: a key found in
the updated dict is the assigned key or a key of the old dict. -/
theorem keySourceStep {p : Str × Option Str} {args : ArgsMap} {k : Str}
    {v : Option Str} (h : ∃ w, (p.1, w) ∈ odSet args k v) :
    p.1 = k ∨ ∃ w, (p.1, w) ∈ args := by
  obtain ⟨w, hw⟩ := h
  have := odSet_key_mem args k v (p.1, w) hw
  simpa using this

/-- Every key of a successfully parsed argument map is a dash token of
the command line with the dash stripped (or was in the accumulator);
stated with an explicit length bound to drive the induction. -/
theorem parseLoop_key_source_bounded (n : ℕ) :
    ∀ (cmd : List Str) (args res : ArgsMap), cmd.length ≤ n →
      parseLoop args cmd = .ok res →
      ∀ p ∈ res, (∃ w, (p.1, w) ∈ args) ∨
        ∃ tok, tok ∈ cmd ∧ startsDash tok = true ∧ p.1 = tok.drop 1 := by
  induction n with
  | zero =>
    intro cmd args res hlen hres p hp
    have hc : cmd = [] := List.length_eq_zero.mp (Nat.le_zero.mp hlen)
    subst hc
    simp only [parseLoop] at hres
    cases hres
    exact .inl ⟨p.2, hp⟩
  | succ n ih =>
    intro cmd args res hlen hres p hp
    cases cmd with
    | nil =>
      simp only [parseLoop] at hres
      cases hres
      exact .inl ⟨p.2, hp⟩
    | cons tok rest1 =>
      cases rest1 with
      | nil =>
        cases hd : startsDash tok with
        | true => simp [parseLoop, hd] at hres
        | false =>
          simp only [parseLoop, hd, Bool.false_eq_true, if_false] at hres
          cases hres
          exact .inl ⟨p.2, hp⟩
      | cons next rest =>
        have hlen2 : rest.length ≤ n := by simp at hlen; omega
        have hlen1 : (next :: rest).length ≤ n := by simp at hlen ⊢; omega
        cases hd : startsDash tok with
        | false =>
          simp only [parseLoop, hd, Bool.false_eq_true, if_false] at hres
          rcases ih (next :: rest) args res hlen1 hres p hp with h | ⟨t, ht, hts, hte⟩
          · exact .inl h
          · exact .inr ⟨t, List.mem_cons_of_mem tok ht, hts, hte⟩
        | true =>
          have step : ∀ (v : Option Str) (cmd2 : List Str),
              (∀ t, t ∈ cmd2 → t ∈ tok :: next :: rest) →
              cmd2.length ≤ n →
              parseLoop (odSet args (tok.drop 1) v) cmd2 = .ok res →
              (∃ w, (p.1, w) ∈ args) ∨
                ∃ t, t ∈ tok :: next :: rest ∧ startsDash t = true ∧
                  p.1 = t.drop 1 := by
            intro v cmd2 hsub hl2 h2
            rcases ih cmd2 (odSet args (tok.drop 1) v) res hl2 h2 p hp with
              h | ⟨t, ht, hts, hte⟩
            · rcases keySourceStep h with hk | h3
              · exact .inr ⟨tok, List.mem_cons_self tok _, hd, hk⟩
              · exact .inl h3
            · exact .inr ⟨t, hsub t ht, hts, hte⟩
          cases hnd : startsDash next with
          | false =>
            simp only [parseLoop, hd, hnd, Bool.false_eq_true, if_true,
              if_false] at hres
            exact step (some next) rest
              (fun t ht => List.mem_cons_of_mem tok (List.mem_cons_of_mem next ht))
              hlen2 hres
          | true =>
            by_cases hl : 1 < next.length
            · cases hget : next[2]? with
              | none =>
                simp [parseLoop, hd, hnd, hl, hget] at hres
              | some c =>
                cases hdig : c.isDigit with
                | true =>
                  simp only [parseLoop, hd, hnd, hl, hget, hdig, if_true] at hres
                  exact step (some next) rest
                    (fun t ht =>
                      List.mem_cons_of_mem tok (List.mem_cons_of_mem next ht))
                    hlen2 hres
                | false =>
                  simp only [parseLoop, hd, hnd, hl, hget, hdig,
                    Bool.false_eq_true, if_true, if_false] at hres
                  exact step none (next :: rest) (fun t ht =>
                    List.mem_cons_of_mem tok ht) hlen1 hres
            · simp only [parseLoop, hd, hnd, hl, if_true, if_false] at hres
              exact step none (next :: rest) (fun t ht =>
                List.mem_cons_of_mem tok ht) hlen1 hres

/-- Every key of a successfully parsed argument map is a dash token of
the command line with the dash stripped. -/
theorem parseLoop_key_source (cmd : List Str) (res : ArgsMap)
    (hres : parseLoop [] cmd = .ok res) :
    ∀ p ∈ res, ∃ tok, tok ∈ cmd ∧ startsDash tok = true ∧ p.1 = tok.drop 1 := by
  intro p hp
  rcases parseLoop_key_source_bounded cmd.length cmd [] res le_rfl hres p hp with
    ⟨w, hw⟩ | h
  · simp at hw
  · exact h

/-- Reading just past a list, at the head of a one-element extension. -/
theorem getD_append_length {α : Type} (l : List α) (x d : α) :
    (l ++ [x]).getD l.length d = x := by
  induction l with
  | nil => rfl
  | cons a t ih => exact ih

/-- Reading inside the left part of an appended list. -/
theorem getD_append_lt {α : Type} (l l2 : List α) (j : ℕ) (d : α)
    (h : j < l.length) : (l ++ l2).getD j d = l.getD j d := by
  induction l generalizing j with
  | nil => simp at h
  | cons a t ih =>
    cases j with
    | zero => rfl
    | succ j => simpa using ih j (by simpa using h)

/-- Reading a `zipWith` inside both bounds. -/
theorem getD_zipWith {α β γ : Type} (f : α → β → γ) (l1 : List α)
    (l2 : List β) (j : ℕ) (d1 : α) (d2 : β) (d3 : γ)
    (h1 : j < l1.length) (h2 : j < l2.length) :
    (List.zipWith f l1 l2).getD j d3 = f (l1.getD j d1) (l2.getD j d2) := by
  induction l1 generalizing l2 j with
  | nil => simp at h1
  | cons a t ih =>
    cases l2 with
    | nil => simp at h2
    | cons b t2 =>
      cases j with
      | zero => rfl
      | succ j =>
        simpa using ih t2 j (by simpa using h1) (by simpa using h2)

/-! ### Claims -/

/-- C1: the spec's flag/value policy says a dash-initial next token whose
third character is missing (such as `-1` or `-o`) leaves the current
argument a valueless flag; the source instead guards `cmd[i+1][2]` only
with `len(cmd[i+1]) > 1`, so a two-character dash token raises
`IndexError`.  At the command line `-bootstrap -o out.nc` the policy
parses to a bootstrap flag plus `o = out.nc`, while the code raises. -/
theorem claim_C1 :
    specPolicyParse (str "-bootstrap -o out.nc") =
      .ok [ (str "bootstrap", none), (str "o", some (str "out.nc")) ] ∧
    snoop_pism_args (str "-bootstrap -o out.nc") = .error .indexError := by
  exact ⟨rfl, rfl⟩

/-- C2: the command line `-i in.nc -bootstrap -Mx 76 -ys -100 -o out.nc`
parses to exactly the ordered map
`i = in.nc, bootstrap = None, Mx = 76, ys = -100, o = out.nc`,
in command-line order (`-100` is taken as the value of `ys` because its
third character is a digit). -/
theorem claim_C2 :
    snoop_pism_args (str "-i in.nc -bootstrap -Mx 76 -ys -100 -o out.nc") =
      .ok [ (str "i", some (str "in.nc")), (str "bootstrap", none),
            (str "Mx", some (str "76")), (str "ys", some (str "-100")),
            (str "o", some (str "out.nc")) ] := by
  exact rfl

/-- C10: a token that does not begin with a dash and that the cursor
reaches (so it was not consumed as a value) is skipped silently — the
parse continues exactly as if it were absent, with no error — and every
key of a parse result comes from a dash token; concretely, parsing
`pismr -i in.nc bare -Mx 5` ignores the executable name and the bare
token entirely. -/
theorem claim_C10 :
    (∀ (args : ArgsMap) (t : Str) (rest : List Str),
      startsDash t = false → parseLoop args (t :: rest) = parseLoop args rest) ∧
    (∀ (cmd : List Str) (res : ArgsMap), parseLoop [] cmd = .ok res →
      ∀ p ∈ res, ∃ tok, tok ∈ cmd ∧ startsDash tok = true ∧ p.1 = tok.drop 1) ∧
    snoop_pism_args (str "pismr -i in.nc bare -Mx 5") =
      .ok [ (str "i", some (str "in.nc")), (str "Mx", some (str "5")) ] := by
  exact ⟨parseLoop_skip, parseLoop_key_source, rfl⟩

/-- C3: on any sequence of at least two cell centers,
`center_to_boundaries` returns one boundary more than there are centers,
with the first boundary `1.5*c[0] - 0.5*c[1]`, the last boundary
`1.5*c[N-1] - 0.5*c[N-2]`, and every interior boundary the midpoint of
its two flanking centers; in particular centers `[0, 1, 2, 3]` give
boundaries `[-0.5, 0.5, 1.5, 2.5, 3.5]`. -/
theorem claim_C3 :
    (∀ xc : List ℚ, 2 ≤ xc.length →
      ∃ xb, center_to_boundaries xc = .ok xb ∧
        xb.length = xc.length + 1 ∧
        xb.getD 0 0 = 3 / 2 * xc.getD 0 0 - 1 / 2 * xc.getD 1 0 ∧
        xb.getD xc.length 0 =
          3 / 2 * xc.getD (xc.length - 1) 0 -
            1 / 2 * xc.getD (xc.length - 2) 0 ∧
        ∀ k, 1 ≤ k → k < xc.length →
          xb.getD k 0 = (xc.getD (k - 1) 0 + xc.getD k 0) / 2) ∧
    center_to_boundaries [ 0, 1, 2, 3 ] =
      .ok [ -(1 / 2), 1 / 2, 3 / 2, 5 / 2, 7 / 2 ] := by
  constructor
  · intro xc h
    cases xc with
    | nil => simp at h
    | cons x0 t =>
      cases t with
      | nil => simp at h
      | cons x1 rest =>
        have hzlen : (List.zipWith (fun a b => (a + b) * (1 / 2))
            (x0 :: x1 :: rest).dropLast ((x0 :: x1 :: rest).drop 1)).length =
            rest.length + 1 := by
          simp [List.length_zipWith]
        refine ⟨_, rfl, ?_, ?_, ?_, ?_⟩
        · simp [List.length_append, hzlen]
        · simp [List.getD_cons_zero, List.getD_cons_succ]
        · show (_ :: _).getD ((x0 :: x1 :: rest).length) 0 = _
          simp only [List.length_cons, List.getD_cons_succ]
          rw [show rest.length + 1 = (List.zipWith
              (fun a b => (a + b) * (1 / 2)) (x0 :: x1 :: rest).dropLast
              ((x0 :: x1 :: rest).drop 1)).length from hzlen.symm,
            getD_append_length]
        · intro k hk1 hk2
          obtain ⟨j, rfl⟩ : ∃ j, k = j + 1 := ⟨k - 1, by omega⟩
          simp only [List.getD_cons_succ, Nat.add_sub_cancel]
          have hj : j < rest.length + 1 := by
            simp [List.length_cons] at hk2
            omega
          rw [getD_append_lt _ _ _ _ (by rw [hzlen]; exact hj),
            getD_zipWith (fun a b => (a + b) * (1 / 2)) _ _ j 0 0 0
              (by simp [List.length_dropLast]; omega)
              (by simp [List.length_drop]; omega)]
          rw [List.getD_eq_getElem _ 0
              (by simp [List.length_dropLast]; omega),
            List.getElem_dropLast,
            List.getD_eq_getElem _ 0 (by simp [List.length_drop]; omega),
            List.getElem_drop,
            ← List.getD_eq_getElem (x0 :: x1 :: rest) 0
              (by simp; omega),
            ← List.getD_eq_getElem (x0 :: x1 :: rest) 0
              (by simp; omega)]
          have h1j : 1 + j = j + 1 := by omega
          rw [h1j]
          simp only [List.getD_cons_succ]
          ring
  · simp [center_to_boundaries]
    norm_num

/-- C8: `center_to_boundaries` on fewer than two centers fails, and with
the single error kind the function has — the out-of-range access that
the spec's taxonomy names `InsufficientDataError`; concretely so for the
empty sequence and for a one-element sequence. -/
theorem claim_C8 :
    (∀ xc : List ℚ, xc.length < 2 →
      center_to_boundaries xc = .error .insufficientData) ∧
    center_to_boundaries [] = .error .insufficientData ∧
    center_to_boundaries [ (5 : ℚ) ] = .error .insufficientData := by
  refine ⟨?_, rfl, rfl⟩
  intro xc h
  cases xc with
  | nil => rfl
  | cons a t =>
    cases t with
    | nil => rfl
    | cons b t2 =>
      simp [List.length_cons] at h
      omega

/-- C4: resampling one axis to a target resolution `Mx ≥ 2` yields `Mx`
centers with `x[k] = x_native[0] + (x_native[-1] - x_native[0]) * k /
(Mx - 1)`; consequently native centers `[0, 1000, 2000, 3000]` resampled
to `Mx = 4` come back unchanged and resampled to `Mx = 7` give seven
evenly spaced samples spanning `[0, 3000]`. -/
theorem claim_C4 :
    (∀ (q0 : ℚ) (rest : List ℚ) (Mx : ℕ), 2 ≤ Mx →
      ∃ l, resampleAxis ((q0 :: rest).map some) Mx = .ok l ∧
        l.length = Mx ∧
        ∀ k, k < Mx → l.getD k none =
          some (q0 + ((q0 :: rest).getD ((q0 :: rest).length - 1) 0 - q0) *
            (k : ℚ) / ((Mx : ℚ) - 1))) ∧
    resampleAxis [ some 0, some 1000, some 2000, some 3000 ] 4 =
      .ok [ some 0, some 1000, some 2000, some 3000 ] ∧
    resampleAxis [ some 0, some 1000, some 2000, some 3000 ] 7 =
      .ok [ some 0, some 500, some 1000, some 1500, some 2000,
            some 2500, some 3000 ] := by
  refine ⟨?_, ?_, ?_⟩
  · intro q0 rest Mx hMx
    have hMx0 : ((Mx : ℚ) - 1) ≠ 0 := by
      have h2 : (2 : ℚ) ≤ (Mx : ℚ) := by exact_mod_cast hMx
      intro hc
      rw [sub_eq_zero] at hc
      rw [hc] at h2
      norm_num at h2
    refine ⟨_, rfl, ?_, ?_⟩
    · simp only [List.length_map, List.length_range]
    intro k hk
    have hlast : ((q0 :: rest).map some).getD
        (((q0 :: rest).map some).length - 1) none =
        some ((q0 :: rest).getD ((q0 :: rest).length - 1) 0) := by
      have hml : ((q0 :: rest).map some).length = (q0 :: rest).length := by
        rw [List.length_map]
      rw [hml, List.getD_eq_getElem _ none
          (by simp only [List.length_map, List.length_cons]; omega),
        List.getElem_map,
        ← List.getD_eq_getElem (q0 :: rest) 0
          (by simp only [List.length_cons]; omega)]
    rw [List.getD_eq_getElem _ none
        (by simp only [List.length_map, List.length_range]; exact hk),
      List.getElem_map, List.getElem_range, hlast]
    simp only [npSub, npMul, npDiv, npAdd, if_neg hMx0]
  · simp [resampleAxis, npAdd, npDiv, npSub, npMul, List.range_succ]
    norm_num
  · simp [resampleAxis, npAdd, npDiv, npSub, npMul, List.range_succ]
    norm_num

/-- C5 counterexample: for a descending axis with spacing `-2000` m the
code computes `int(.5 + (-2))` which truncates toward zero to `-1`, not
the nearest integer `-2` (strictly closer), and the canonical name for a
recognized-prefix bootstrap file shows the `-1`. -/
theorem claim_C5_counterexample :
    axisRes [ some 0, some (-2000) ] = .ok (-1) ∧
    snoopName (str "pism_Greenland_5km_v1.1.nc")
      [ some 0, some (-2000) ] [ some 0, some (-2000) ] =
      .ok (str "pism_g-1km_10") ∧
    |((-2000 : ℚ) / 1000) - ((-2 : ℤ) : ℚ)| <
      |((-2000 : ℚ) / 1000) - ((-1 : ℤ) : ℚ)| := by
  have haxis : axisRes [ some 0, some (-2000) ] = .ok (-1) := by
    simp [axisRes, npToInt, npAdd, npDiv, npSub, pyInt]
    norm_num
    rw [Int.ceil_eq_iff]
    norm_num
  refine ⟨haxis, ?_, by norm_num⟩
  simp only [snoopName, haxis, Except.bind]
  rfl

/-- C5 (amended): the index order is always `(1, 0)` and a bootstrap
leaf name with the recognized prefix yields the canonical name
`pism_g` + dxdy + `km_10`, where each per-axis resolution is
`int(0.5 + (center[1]-center[0])/1000)` — truncation toward zero, which
for a nonnegative spacing equals `floor(d/1000 + 1/2)` and is within
one half of `d/1000`, i.e. a nearest integer; the nearest-integer
reading fails only for negative spacings.  Concretely, spacing `2000` m
on both axes names the grid `pism_g2km_10`. -/
theorem claim_C5 :
    index_order = (1, 0) ∧
    (∀ (ipath : Str) (xc yc : List NpF) (idx idy : ℤ),
      axisRes xc = .ok idx → axisRes yc = .ok idy →
      pismGreenland.isPrefixOf (basename ipath) = true →
      snoopName ipath xc yc =
        .ok (str "pism_g" ++
          (if idx = idy then intToStr idx
            else intToStr idx ++ str "_" ++ intToStr idy) ++ str "km_10")) ∧
    (∀ q0 q1 : ℚ, 0 ≤ q1 - q0 →
      axisRes [ some q0, some q1 ] = .ok ⌊(q1 - q0) / 1000 + 1 / 2⌋ ∧
      |(⌊(q1 - q0) / 1000 + 1 / 2⌋ : ℚ) - (q1 - q0) / 1000| ≤ 1 / 2) ∧
    snoopName (str "pism_Greenland_5km_v1.1.nc")
      [ some 0, some 2000 ] [ some 0, some 2000 ] =
      .ok (str "pism_g2km_10") := by
  refine ⟨rfl, ?_, ?_, ?_⟩
  · intro ipath xc yc idx idy hx hy hpre
    simp only [snoopName, hx, hy, Except.bind]
    show Except.ok (gridName ipath idx idy) = _
    simp only [gridName, hpre, if_true, List.append_assoc]
    rfl
  · intro q0 q1 hd
    have h1000 : ((1000 : ℚ)) ≠ 0 := by norm_num
    have harg : (0 : ℚ) ≤ 1 / 2 + (q1 - q0) / 1000 := by positivity
    constructor
    · simp only [axisRes, npSub, npDiv, if_neg h1000, npAdd, npToInt,
        pyInt, if_pos harg]
      rw [add_comm]
    · have hfl : (⌊(q1 - q0) / 1000 + 1 / 2⌋ : ℚ) ≤ (q1 - q0) / 1000 + 1 / 2 :=
        Int.floor_le _
      have hfu : (q1 - q0) / 1000 + 1 / 2 <
          (⌊(q1 - q0) / 1000 + 1 / 2⌋ : ℚ) + 1 :=
        Int.lt_floor_add_one _
      rw [abs_le]
      constructor <;> linarith
  · have haxis : axisRes [ some 0, some 2000 ] = .ok 2 := by
      simp [axisRes, npToInt, npAdd, npDiv, npSub, pyInt]
      norm_num
    simp only [snoopName, haxis, Except.bind]
    rfl

/-- C6 counterexample: on exactly the claimed input map the transformer
does not return at all — the absolutization loop reads
`args['surface_given_file']`, which is absent, so it raises `KeyError`
(the spec's `MissingRequiredArgumentError`). -/
theorem claim_C6_counterexample :
    make_pism_args (str "/run")
      [ (str "bootstrap", none), (str "Mx", some (str "76")),
        (str "i", some (str "rel/in.nc")),
        (str "extra_vars", some (str "thk,topg")) ] =
      .error .keyError := by
  rfl

/-- C6 (amended): with the two further required path keys present
(`surface_given_file`, `ocean_kill_file`), the transformer removes
`bootstrap` and `Mx`, rewrites each path key to its normalized absolute
form under `/run`, and extends `extra_vars` with every baseline entry
not already present, keeping `thk,topg` first and preserving key
order. -/
theorem claim_C6 :
    make_pism_args (str "/run")
      [ (str "bootstrap", none), (str "Mx", some (str "76")),
        (str "i", some (str "rel/in.nc")),
        (str "surface_given_file", some (str "s.nc")),
        (str "ocean_kill_file", some (str "k.nc")),
        (str "extra_vars", some (str "thk,topg")) ] =
      .ok [ (str "i", some (str "/run/rel/in.nc")),
            (str "surface_given_file", some (str "/run/s.nc")),
            (str "ocean_kill_file", some (str "/run/k.nc")),
            (str "extra_vars", some (str "thk,topg,climatic_mass_balance,ice_surface_temp,diffusivity,temppabase,tempicethk_basal,bmelt,tillwat,csurf,mask,usurf")) ] := by
  rfl

/-- A write to one dict object leaves every other object unchanged. -/
theorem readCell_writeCell_ne (st : Store) (j r : ℕ) (m : ArgsMap)
    (h : r ≠ j) : readCell (writeCell st j m) r = readCell st r := by
  simp [readCell, writeCell, List.getElem?_set_ne (Ne.symm h)]

/-- Allocation leaves every existing dict object unchanged. -/
theorem readCell_alloc_lt (st : Store) (m : ArgsMap) (r : ℕ)
    (h : r < st.length) : readCell (alloc st m).1 r = readCell st r := by
  simp [readCell, alloc, List.getElem?_append_left h]

/-- The absolutization loop only ever writes the dict object `j`: every
other object reads the same before and after, also when it raises. -/
theorem absPathsRef_frame (pism_dir : Str) (ks : List Str) :
    ∀ (st : Store) (j r : ℕ), r ≠ j →
      readCell (absPathsRef pism_dir st j ks).1 r = readCell st r := by
  induction ks with
  | nil => intro st j r _; rfl
  | cons k ks ih =>
    intro st j r hrj
    show readCell (match readCell st j with
      | none => (st, some ArgsErr.keyError)
      | some m =>
        match absPathStep pism_dir m k with
        | .error e => (st, some e)
        | .ok m2 => absPathsRef pism_dir (writeCell st j m2) j ks).1 r =
      readCell st r
    cases hj : readCell st j with
    | none => rfl
    | some m =>
      show readCell (match absPathStep pism_dir m k with
        | .error e => (st, some e)
        | .ok m2 => absPathsRef pism_dir (writeCell st j m2) j ks).1 r =
        readCell st r
      cases hstep : absPathStep pism_dir m k with
      | error e => rfl
      | ok m2 =>
        show readCell (absPathsRef pism_dir (writeCell st j m2) j ks).1 r =
          readCell st r
        rw [ih (writeCell st j m2) j r hrj]
        exact readCell_writeCell_ne st j r m2 hrj

/-- C7: `make_pism_args` never mutates the original argument map: the
dict object it receives reads back exactly the same (same keys, values
and order) after the call, whether the call returns or raises — the
transformer works on the fresh copy it allocates.  Concretely so for the
map of the bootstrap test input, on which the call raises `KeyError`. -/
theorem claim_C7 :
    (∀ (pism_dir : Str) (st : Store) (r : ℕ) (m : ArgsMap),
      readCell st r = some m →
      readCell (make_pism_args_ref pism_dir st r).1 r = some m) ∧
    readCell (make_pism_args_ref (str "/run")
      [ [ (str "bootstrap", none), (str "Mx", some (str "76")),
          (str "i", some (str "rel/in.nc")),
          (str "extra_vars", some (str "thk,topg")) ] ] 0).1 0 =
      some [ (str "bootstrap", none), (str "Mx", some (str "76")),
             (str "i", some (str "rel/in.nc")),
             (str "extra_vars", some (str "thk,topg")) ] := by
  constructor
  · intro pism_dir st r m hr
    have hrlen : r < st.length := by
      by_contra hc
      rw [readCell, List.getElem?_eq_none (by omega)] at hr
      cases hr
    have hrj : r ≠ st.length := by omega
    show readCell (match readCell st r with
      | none => (st, Except.error ArgsErr.keyError)
      | some orig =>
        let st1 := (alloc st orig).1
        let j := (alloc st orig).2
        let st2 := writeCell st1 j (delBootKeys orig)
        match absPathsRef pism_dir st2 j pathKeys with
        | (st3, some e) => (st3, .error e)
        | (st3, none) =>
          match readCell st3 j with
          | none => (st3, .error .keyError)
          | some m =>
            match extraVarsStep m with
            | .error e => (st3, .error e)
            | .ok m2 => (writeCell st3 j m2, .ok j)).1 r = some m
    rw [hr]
    show readCell (match absPathsRef pism_dir
        (writeCell (st ++ [m]) st.length (delBootKeys m))
        st.length pathKeys with
      | (st3, some e) => (st3, Except.error e)
      | (st3, none) =>
        match readCell st3 st.length with
        | none => (st3, .error .keyError)
        | some m4 =>
          match extraVarsStep m4 with
          | .error e => (st3, .error e)
          | .ok m2 => (writeCell st3 st.length m2, .ok st.length)).1
      r = some m
    have happ : readCell (st ++ [m]) r = some m := by
      show (st ++ [m])[r]? = some m
      rw [List.getElem?_append_left hrlen]
      exact hr
    have hbase : readCell (writeCell (st ++ [m]) st.length
        (delBootKeys m)) r = some m := by
      rw [readCell_writeCell_ne _ _ _ _ hrj]
      exact happ
    have hframe := absPathsRef_frame pism_dir pathKeys
      (writeCell (st ++ [m]) st.length (delBootKeys m))
      st.length r hrj
    cases habs : absPathsRef pism_dir
        (writeCell (st ++ [m]) st.length (delBootKeys m))
        st.length pathKeys with
    | mk st3 e =>
      rw [habs] at hframe
      cases e with
      | some e2 =>
        show readCell st3 r = some m
        rw [hframe]
        exact hbase
      | none =>
        show readCell (match readCell st3 st.length with
          | none => (st3, Except.error ArgsErr.keyError)
          | some m4 =>
            match extraVarsStep m4 with
            | .error e => (st3, .error e)
            | .ok m2 => (writeCell st3 st.length m2, .ok st.length)).1 r =
          some m
        cases h3 : readCell st3 st.length with
        | none =>
          show readCell st3 r = some m
          rw [hframe]
          exact hbase
        | some m4 =>
          show readCell (match extraVarsStep m4 with
            | .error e => (st3, Except.error e)
            | .ok m2 => (writeCell st3 st.length m2,
                Except.ok st.length)).1 r = some m
          cases h4 : extraVarsStep m4 with
          | error e3 =>
            show readCell st3 r = some m
            rw [hframe]
            exact hbase
          | ok m2 =>
            show readCell (writeCell st3 st.length m2) r = some m
            rw [readCell_writeCell_ne _ _ _ _ hrj, hframe]
            exact hbase
  · rfl

/-- C9 counterexample: with `Mx = 1` the resampling step does not fail at
all, with `DegenerateGridError` or anything else — numpy float division
by zero is non-signaling — it returns one non-finite center. -/
theorem claim_C9_counterexample :
    resampleAxis [ some 0, some 1000, some 2000, some 3000 ] 1 =
      .ok [ none ] ∧
    resampleAxis [ some 0, some 1000, some 2000, some 3000 ] 1 ≠
      .error .degenerateGrid := by
  have h : resampleAxis [ some 0, some 1000, some 2000, some 3000 ] 1 =
      .ok [ none ] := by
    simp [resampleAxis, npAdd, npDiv, npSub, npMul, List.range_succ]
  refine ⟨h, ?_⟩
  rw [h]
  intro hc
  cases hc

/-- C9 (amended): for any nonempty native axis, resampling to a target
resolution of 1 succeeds and yields a single non-finite center (the
interpolation divides by `Mx - 1 = 0`, which numpy turns into nan, not
an exception); the resolver then fails with an `IndexError` when the
per-axis resolution step reads `center[1]` of that one-element axis. -/
theorem claim_C9 :
    (∀ (x0 : NpF) (rest : List NpF),
      resampleAxis (x0 :: rest) 1 = .ok [ none ]) ∧
    axisRes [ (none : NpF) ] = .error .indexError ∧
    resampleAxis [ some 0, some 1000, some 2000, some 3000 ] 1 =
      .ok [ none ] := by
  have hdiv0 : ∀ x : NpF, npDiv x (some 0) = none := by
    intro x
    cases x <;> simp [npDiv]
  have haddn : ∀ x : NpF, npAdd x none = none := by
    intro x
    cases x <;> simp [npAdd]
  have h10 : ((1 : ℕ) : ℚ) - 1 = 0 := by norm_num
  refine ⟨?_, rfl, ?_⟩
  · intro x0 rest
    simp [resampleAxis, List.range_succ, List.range_zero, h10, hdiv0, haddn]
  · simp [resampleAxis, List.range_succ, List.range_zero, h10, hdiv0, haddn]

end TwoWay
